import Mathlib

/-!
Shallow embedding of `ffmpeg-smart-trim` (`src/ffmpeg_smart_trim/trim.py`).

Python `Decimal` timestamps are modelled as `ℚ` (exact arithmetic, as in the
source).  The external `ffmpeg.probe` collaborator is modelled by passing the
probed keyframe timestamp list and duration as explicit inputs; `mkdtemp` by
passing the temporary directory name.  An ffmpeg output node built by the
inner `trim(start, end, path, copy)` helper is modelled by a `TrimCmd` record
holding the trim-relevant attributes of that node (`ss`, `to`, output path and
whether `c='copy'` was used).  Python exceptions (the `IndexError` raised by
`self.key_frame_timestamps[0]` on an empty keyframe list) are modelled by
`Option`: `none` is an uncaught exception.
-/

/-- One ffmpeg output node produced by the inner `trim` helper of
`generate_trim`: a cut from `start` to `stop` (source keyword `end`) written
to `path`, by stream copy when `copy = true` and by re-encode otherwise. -/
structure TrimCmd where
  start : ℚ
  stop : ℚ
  path : String
  copy : Bool
deriving DecidableEq, Repr

/-- State of a `TrimVideo` object after `__init__` (the probed data and the
fields the planning methods read). -/
structure TrimVideo where
  key_frame_timestamps : List ℚ
  duration : ℚ
  time_range : ℚ × ℚ
  temp_dir : String
deriving DecidableEq, Repr

/-- Loop body of `find_before_timestamp`: scan the keyframes in order,
breaking at the first one strictly greater than `t`, returning the last
keyframe retained before the break. -/
def floor_go (t : ℚ) (last : ℚ) : List ℚ → ℚ
  | [] => last
  | k :: rest => if k > t then last else floor_go t k rest

/-- `TrimVideo.find_before_timestamp`: `last_timestamp` starts at
`key_frame_timestamps[0]` (an `IndexError`, i.e. `none`, on an empty list),
then the ascending scan with break.  Returns the greatest keyframe `≤ t`
for sorted input, or the first keyframe when `t` precedes it. -/
def find_before_timestamp (kfs : List ℚ) (timestamp : ℚ) : Option ℚ :=
  match kfs with
  | [] => none
  | k0 :: _ => some (floor_go timestamp k0 kfs)

/-- Loop body of `find_after_timestamp`: scan (the reversed keyframe list) in
order, breaking at the first keyframe strictly less than `t`, returning the
last value retained (initialised to the duration). -/
def ceil_go (t : ℚ) (last : ℚ) : List ℚ → ℚ
  | [] => last
  | k :: rest => if k < t then last else ceil_go t k rest

/-- `TrimVideo.find_after_timestamp`: `last_timestamp` starts at
`self.duration`, then scans `reversed(self.key_frame_timestamps)` with break.
Total even on an empty list (returns the duration). -/
def find_after_timestamp (kfs : List ℚ) (duration : ℚ) (timestamp : ℚ) : ℚ :=
  ceil_go timestamp duration kfs.reverse

/-- `TrimVideo.__init__`, pure part.  The probed keyframe list and duration
and the `mkdtemp` result are inputs.  With `time_range = None` the session
range is `(0, duration)`; with an explicit range the constructor calls
`find_before_timestamp(time_range[0])` (which raises `IndexError` on an empty
keyframe list — modelled as `none`) and `find_after_timestamp(time_range[1])`
(total) to position the input seek window, then stores the given range. -/
def TrimVideo.mkInit (kfs : List ℚ) (duration : ℚ) (time_range : Option (ℚ × ℚ))
    (temp_dir : String) : Option TrimVideo :=
  match time_range with
  | none => some ⟨kfs, duration, (0, duration), temp_dir⟩
  | some tr =>
    match find_before_timestamp kfs tr.1 with
    | none => none
    | some _start_key_frame => some ⟨kfs, duration, tr, temp_dir⟩

/-- `os.path.join(self.temp_dir, file)` for the relative file names used by
`generate_trim`. -/
def path_join (dir file : String) : String := dir ++ "/" ++ file

/-- The inner `trim(start, end, path, copy)` helper of `generate_trim`,
as a record of the output node it builds. -/
def trim (start stop : ℚ) (path : String) (copy : Bool) : TrimCmd :=
  ⟨start, stop, path, copy⟩

/-- The clamp `if start_time < self.time_range[0]: start_time = self.time_range[0]`. -/
def clamp_start (v : TrimVideo) (start_time : ℚ) : ℚ :=
  if start_time < v.time_range.1 then v.time_range.1 else start_time

/-- The clamp `if end_time > self.time_range[1]: end_time = self.time_range[1]`. -/
def clamp_end (v : TrimVideo) (end_time : ℚ) : ℚ :=
  if end_time > v.time_range.2 then v.time_range.2 else end_time

/-- `TrimVideo.generate_trim(start_time, end_time, pre)` (source parameter
name of `pre` is the output-name prefix argument).  Returns
`(files, fast_trims, slow_trims)`: the chronological output-file list and
the copy (fast) and re-encode (slow) job lists, or `none` when
`find_before_timestamp` raises on an empty keyframe list. -/
def generate_trim (v : TrimVideo) (start_time end_time : ℚ) (pre : String) :
    Option (List String × List TrimCmd × List TrimCmd) :=
  let start_time := clamp_start v start_time
  let end_time := clamp_end v end_time
  let start_key_frame := find_after_timestamp v.key_frame_timestamps v.duration start_time
  match find_before_timestamp v.key_frame_timestamps end_time with
  | none => none
  | some end_key_frame =>
    if start_key_frame > end_key_frame then
      -- start_time and end_time within the same keyframe interval
      let output := path_join v.temp_dir (pre ++ "_output.ts")
      some ([output], [], [trim start_time end_time output false])
    else
      let start_file := path_join v.temp_dir (pre ++ "_start.ts")
      let end_file := path_join v.temp_dir (pre ++ "_end.ts")
      let slow_trims :=
        (if start_time ≠ start_key_frame then [trim start_time start_key_frame start_file false] else [])
          ++ (if end_time ≠ end_key_frame then [trim end_key_frame end_time end_file false] else [])
      if start_key_frame = end_key_frame then
        -- there are no keyframes between start and end time
        let files :=
          (if start_time ≠ start_key_frame then [start_file] else [])
            ++ (if end_time ≠ end_key_frame then [end_file] else [])
        some (files, [], slow_trims)
      else
        -- most common: there are keyframes between start and end
        let middle_file := path_join v.temp_dir (pre ++ "_middle.ts")
        let fast_trims := [trim start_key_frame end_key_frame middle_file true]
        let files :=
          (if start_time ≠ start_key_frame then [start_file] else [])
            ++ [middle_file]
            ++ (if end_time ≠ end_key_frame then [end_file] else [])
        some (files, fast_trims, slow_trims)

/-- The plan's segments in chronological order: `files` is the chronological
output-file list consumed by `generate_merge`, and each file is produced by
the unique trim job writing to that path, so the chronological segment list
is obtained by resolving each file name to its job. -/
def plan_segments (files : List String) (fast_trims slow_trims : List TrimCmd) :
    List TrimCmd :=
  files.filterMap (fun p => (fast_trims ++ slow_trims).find? (fun tr => tr.path == p))

/-- The chronological segment list of a `generate_trim` result, or `none`
when the call raised. -/
def plan_of (r : Option (List String × List TrimCmd × List TrimCmd)) :
    Option (List TrimCmd) :=
  r.map (fun x => plan_segments x.1 x.2.1 x.2.2)

/-- The segment intervals of `l`, laid end to end, cover exactly `[s, e]`:
the first segment starts at `s`, each segment's end is the next segment's
start, and the last segment ends at `e` (for an empty list, `s = e`). -/
def chain_covers (s : ℚ) : List TrimCmd → ℚ → Prop
  | [], e => s = e
  | seg :: rest, e => seg.start = s ∧ chain_covers seg.stop rest e

example : find_before_timestamp [0, 2, 4, 6, 8] 7 = some 6 := by decide
example : find_before_timestamp [2, 4] 1 = some 2 := by decide
example : find_after_timestamp [0, 2, 4, 6, 8] 10 1 = 2 := by decide
example : find_after_timestamp [0, 2, 4, 6, 8] 10 9 = 10 := by decide
example :
    generate_trim ⟨[0, 2, 4, 6, 8], 10, (0, 10), "t"⟩ 1 7 "" =
      some (["t/_start.ts", "t/_middle.ts", "t/_end.ts"],
        [trim 2 6 "t/_middle.ts" true],
        [trim 1 2 "t/_start.ts" false, trim 6 7 "t/_end.ts" false]) := by decide
example :
    plan_of (generate_trim ⟨[0, 2, 4, 6, 8], 10, (0, 10), "t"⟩ 1 7 "") =
      some [trim 1 2 "t/_start.ts" false, trim 2 6 "t/_middle.ts" true,
        trim 6 7 "t/_end.ts" false] := by decide
example :
    generate_trim ⟨[0, 5], 10, (0, 10), "t"⟩ 1 1 "" =
      some (["t/_output.ts"], [], [trim 1 1 "t/_output.ts" false]) := by decide
example :
    generate_trim ⟨[0, 2, 4, 6, 8], 10, (0, 10), "t"⟩ 7 1 "" =
      some (["t/_output.ts"], [], [trim 7 1 "t/_output.ts" false]) := by decide
example : TrimVideo.mkInit [] 10 none "t" = some ⟨[], 10, (0, 10), "t"⟩ := by decide
example : TrimVideo.mkInit [] 10 (some (1, 2)) "t" = none := by decide
example : generate_trim ⟨[], 10, (0, 10), "t"⟩ 1 2 "" = none := by decide

theorem floor_go_mem_or (t last : ℚ) (l : List ℚ) :
    floor_go t last l = last ∨ floor_go t last l ∈ l := by
  induction l generalizing last with
  | nil => exact Or.inl rfl
  | cons k rest ih =>
    by_cases h : k > t
    · exact Or.inl (by simp [floor_go, h])
    · rcases ih k with h2 | h2
      · right
        simp [floor_go, h, h2]
      · right
        simp only [floor_go, if_neg h]
        exact List.mem_cons_of_mem _ h2

theorem floor_go_le (t : ℚ) {last : ℚ} (l : List ℚ) (h : last ≤ t) :
    floor_go t last l ≤ t := by
  induction l generalizing last with
  | nil => simpa [floor_go]
  | cons k rest ih =>
    by_cases hk : k > t
    · simpa [floor_go, hk]
    · simp only [floor_go, if_neg hk]
      exact ih (le_of_not_lt hk)

theorem floor_go_ge (t : ℚ) {last : ℚ} {l : List ℚ} (hs : l.Sorted (· ≤ ·))
    (h : ∀ k ∈ l, last ≤ k) : last ≤ floor_go t last l := by
  induction l generalizing last with
  | nil => simp [floor_go]
  | cons k rest ih =>
    rcases List.pairwise_cons.1 hs with ⟨hk, hrest⟩
    by_cases hkt : k > t
    · simp [floor_go, hkt]
    · simp only [floor_go, if_neg hkt]
      exact le_trans (h k (List.mem_cons_self k rest)) (ih hrest hk)

theorem floor_go_greatest (t : ℚ) {last : ℚ} {l : List ℚ} (hs : l.Sorted (· ≤ ·)) :
    ∀ j ∈ l, j ≤ t → j ≤ floor_go t last l := by
  induction l generalizing last with
  | nil => intro j hj; exact absurd hj (List.not_mem_nil j)
  | cons k rest ih =>
    rcases List.pairwise_cons.1 hs with ⟨hk, hrest⟩
    intro j hj hjt
    by_cases hkt : k > t
    · rcases List.mem_cons.1 hj with rfl | hj2
      · exact absurd hjt (not_le.2 hkt)
      · exact absurd (le_trans (hk j hj2) hjt) (not_le.2 hkt)
    · simp only [floor_go, if_neg hkt]
      rcases List.mem_cons.1 hj with rfl | hj2
      · exact floor_go_ge t hrest hk
      · exact ih hrest j hj2 hjt

theorem floor_go_le_or (t last : ℚ) (l : List ℚ) :
    floor_go t last l ≤ t ∨ floor_go t last l = last := by
  induction l generalizing last with
  | nil => exact Or.inr rfl
  | cons k rest ih =>
    by_cases hk : k > t
    · exact Or.inr (by simp [floor_go, hk])
    · left
      simp only [floor_go, if_neg hk]
      rcases ih k with h | h
      · exact h
      · rw [h]; exact le_of_not_lt hk

theorem ceil_go_mem_or (t last : ℚ) (l : List ℚ) :
    ceil_go t last l = last ∨ ceil_go t last l ∈ l := by
  induction l generalizing last with
  | nil => exact Or.inl rfl
  | cons k rest ih =>
    by_cases h : k < t
    · exact Or.inl (by simp [ceil_go, h])
    · rcases ih k with h2 | h2
      · right
        simp [ceil_go, h, h2]
      · right
        simp only [ceil_go, if_neg h]
        exact List.mem_cons_of_mem _ h2

theorem ceil_go_ge (t : ℚ) {last : ℚ} (l : List ℚ) (h : t ≤ last) :
    t ≤ ceil_go t last l := by
  induction l generalizing last with
  | nil => simpa [ceil_go]
  | cons k rest ih =>
    by_cases hk : k < t
    · simpa [ceil_go, hk]
    · simp only [ceil_go, if_neg hk]
      exact ih (le_of_not_lt hk)

theorem ceil_go_le (t : ℚ) {last : ℚ} {l : List ℚ} (hs : l.Sorted (· ≥ ·))
    (h : ∀ k ∈ l, k ≤ last) : ceil_go t last l ≤ last := by
  induction l generalizing last with
  | nil => simp [ceil_go]
  | cons k rest ih =>
    rcases List.pairwise_cons.1 hs with ⟨hk, hrest⟩
    by_cases hkt : k < t
    · simp [ceil_go, hkt]
    · simp only [ceil_go, if_neg hkt]
      exact le_trans (ih hrest hk) (h k (List.mem_cons_self k rest))

theorem ceil_go_least (t : ℚ) {last : ℚ} {l : List ℚ} (hs : l.Sorted (· ≥ ·)) :
    ∀ j ∈ l, t ≤ j → ceil_go t last l ≤ j := by
  induction l generalizing last with
  | nil => intro j hj; exact absurd hj (List.not_mem_nil j)
  | cons k rest ih =>
    rcases List.pairwise_cons.1 hs with ⟨hk, hrest⟩
    intro j hj hjt
    by_cases hkt : k < t
    · rcases List.mem_cons.1 hj with rfl | hj2
      · exact absurd hjt (not_le.2 hkt)
      · exact absurd (le_trans hjt (hk j hj2)) (not_le.2 hkt)
    · simp only [ceil_go, if_neg hkt]
      rcases List.mem_cons.1 hj with rfl | hj2
      · exact ceil_go_le t hrest hk
      · exact ih hrest j hj2 hjt

theorem ceil_go_ge_or (t last : ℚ) (l : List ℚ) :
    t ≤ ceil_go t last l ∨ ceil_go t last l = last := by
  induction l generalizing last with
  | nil => exact Or.inr rfl
  | cons k rest ih =>
    by_cases hk : k < t
    · exact Or.inr (by simp [ceil_go, hk])
    · left
      simp only [ceil_go, if_neg hk]
      rcases ih k with h | h
      · exact h
      · rw [h]; exact le_of_not_lt hk

theorem find_before_cons (k0 t : ℚ) (rest : List ℚ) :
    find_before_timestamp (k0 :: rest) t = some (floor_go t k0 (k0 :: rest)) := rfl

theorem find_before_isSome {kfs : List ℚ} (h : kfs ≠ []) (t : ℚ) :
    ∃ r, find_before_timestamp kfs t = some r := by
  match kfs, h with
  | k0 :: rest, _ => exact ⟨_, rfl⟩

theorem find_before_mem {kfs : List ℚ} {t r : ℚ}
    (h : find_before_timestamp kfs t = some r) : r ∈ kfs := by
  match kfs with
  | [] => simp [find_before_timestamp] at h
  | k0 :: rest =>
    rw [find_before_cons, Option.some.injEq] at h
    subst h
    rcases floor_go_mem_or t k0 (k0 :: rest) with h2 | h2
    · rw [h2]; exact List.mem_cons_self _ _
    · exact h2

theorem find_before_le {k0 t r : ℚ} {rest : List ℚ} (hk : k0 ≤ t)
    (h : find_before_timestamp (k0 :: rest) t = some r) : r ≤ t := by
  rw [find_before_cons, Option.some.injEq] at h
  subst h
  exact floor_go_le t _ hk

theorem find_before_greatest {kfs : List ℚ} {t r : ℚ} (hs : kfs.Sorted (· ≤ ·))
    (h : find_before_timestamp kfs t = some r) : ∀ j ∈ kfs, j ≤ t → j ≤ r := by
  match kfs with
  | [] => simp [find_before_timestamp] at h
  | k0 :: rest =>
    rw [find_before_cons, Option.some.injEq] at h
    subst h
    exact floor_go_greatest t hs

theorem find_before_first {k0 t : ℚ} (rest : List ℚ) (hk : t < k0) :
    find_before_timestamp (k0 :: rest) t = some k0 := by
  rw [find_before_cons, Option.some.injEq]
  simp [floor_go, hk]

theorem find_before_le_or {k0 t r : ℚ} {rest : List ℚ}
    (h : find_before_timestamp (k0 :: rest) t = some r) : r ≤ t ∨ r = k0 := by
  rw [find_before_cons, Option.some.injEq] at h
  subst h
  exact floor_go_le_or t k0 (k0 :: rest)

theorem reverse_sorted_ge {kfs : List ℚ} (hs : kfs.Sorted (· ≤ ·)) :
    kfs.reverse.Sorted (· ≥ ·) := by
  rw [List.Sorted, List.pairwise_reverse]
  exact hs

theorem find_after_mem_or (kfs : List ℚ) (dur t : ℚ) :
    find_after_timestamp kfs dur t = dur ∨ find_after_timestamp kfs dur t ∈ kfs := by
  rcases ceil_go_mem_or t dur kfs.reverse with h | h
  · exact Or.inl h
  · exact Or.inr (List.mem_reverse.1 h)

theorem find_after_ge_or (kfs : List ℚ) (dur t : ℚ) :
    t ≤ find_after_timestamp kfs dur t ∨ find_after_timestamp kfs dur t = dur :=
  ceil_go_ge_or t dur kfs.reverse

theorem find_after_ge (kfs : List ℚ) {dur t : ℚ} (h : t ≤ dur) :
    t ≤ find_after_timestamp kfs dur t :=
  ceil_go_ge t kfs.reverse h

theorem find_after_least {kfs : List ℚ} (dur : ℚ) {t : ℚ} (hs : kfs.Sorted (· ≤ ·)) :
    ∀ j ∈ kfs, t ≤ j → find_after_timestamp kfs dur t ≤ j := by
  intro j hj hjt
  exact ceil_go_least t (reverse_sorted_ge hs) j (List.mem_reverse.2 hj) hjt

theorem find_after_after_last {kfs : List ℚ} (dur : ℚ) {t : ℚ} (hne : kfs ≠ [])
    (hs : kfs.Sorted (· ≤ ·)) (h : kfs.getLast hne < t) :
    find_after_timestamp kfs dur t = dur := by
  rcases List.eq_nil_or_concat kfs with rfl | ⟨L, b, heq⟩
  · exact absurd rfl hne
  · have heq2 : kfs = L ++ [b] := by simpa using heq
    subst heq2
    have hb : (L ++ [b]).getLast hne = b := by
      simp [List.getLast_append]
    rw [hb] at h
    unfold find_after_timestamp
    rw [List.reverse_append]
    simp only [List.reverse_cons, List.reverse_nil, List.nil_append, List.cons_append,
      List.singleton_append]
    simp [ceil_go, h]

theorem find_after_le_last {kfs : List ℚ} (dur : ℚ) {t : ℚ} (hne : kfs ≠ [])
    (hs : kfs.Sorted (· ≤ ·)) (h : t ≤ kfs.getLast hne) :
    find_after_timestamp kfs dur t ∈ kfs ∧ t ≤ find_after_timestamp kfs dur t := by
  rcases List.eq_nil_or_concat kfs with rfl | ⟨L, b, heq⟩
  · exact absurd rfl hne
  · have heq2 : kfs = L ++ [b] := by simpa using heq
    subst heq2
    have hb : (L ++ [b]).getLast hne = b := by
      simp [List.getLast_append]
    rw [hb] at h
    have hrev : (L ++ [b]).reverse = b :: L.reverse := by
      simp
    have hnotlt : ¬ b < t := not_lt.2 h
    have hstep : find_after_timestamp (L ++ [b]) dur t = ceil_go t b L.reverse := by
      unfold find_after_timestamp
      rw [hrev]
      simp [ceil_go, hnotlt]
    constructor
    · rw [hstep]
      rcases ceil_go_mem_or t b L.reverse with h2 | h2
      · rw [h2]; exact List.mem_append_right L (List.mem_singleton.2 rfl)
      · exact List.mem_append_left _ (List.mem_reverse.1 h2)
    · rw [hstep]
      exact ceil_go_ge t L.reverse h

theorem path_join_ne (d p : String) {a b : String} (h : a.data ≠ b.data) :
    path_join d (p ++ a) ≠ path_join d (p ++ b) := by
  intro hEq
  apply h
  have h2 := congrArg String.data hEq
  simp only [path_join, String.data_append, List.append_assoc] at h2
  exact List.append_cancel_left (List.append_cancel_left (List.append_cancel_left h2))

theorem generate_trim_degenerate (v : TrimVideo) (s e : ℚ) (p : String) {A B : ℚ}
    (hA : find_after_timestamp v.key_frame_timestamps v.duration (clamp_start v s) = A)
    (hB : find_before_timestamp v.key_frame_timestamps (clamp_end v e) = some B)
    (hlt : B < A) :
    generate_trim v s e p =
      some ([path_join v.temp_dir (p ++ "_output.ts")], [],
        [trim (clamp_start v s) (clamp_end v e)
          (path_join v.temp_dir (p ++ "_output.ts")) false]) := by
  simp only [generate_trim, hA, hB]
  rw [if_pos hlt]

theorem generate_trim_equal (v : TrimVideo) (s e : ℚ) (p : String) {A B : ℚ}
    (hA : find_after_timestamp v.key_frame_timestamps v.duration (clamp_start v s) = A)
    (hB : find_before_timestamp v.key_frame_timestamps (clamp_end v e) = some B)
    (heq : A = B) :
    generate_trim v s e p =
      some ((if clamp_start v s ≠ B then [path_join v.temp_dir (p ++ "_start.ts")] else [])
          ++ (if clamp_end v e ≠ B then [path_join v.temp_dir (p ++ "_end.ts")] else []),
        [],
        (if clamp_start v s ≠ B then
            [trim (clamp_start v s) B (path_join v.temp_dir (p ++ "_start.ts")) false]
          else [])
          ++ (if clamp_end v e ≠ B then
            [trim B (clamp_end v e) (path_join v.temp_dir (p ++ "_end.ts")) false]
          else [])) := by
  subst heq
  simp only [generate_trim, hA, hB]
  rw [if_neg (lt_irrefl A)]
  simp

theorem generate_trim_copy (v : TrimVideo) (s e : ℚ) (p : String) {A B : ℚ}
    (hA : find_after_timestamp v.key_frame_timestamps v.duration (clamp_start v s) = A)
    (hB : find_before_timestamp v.key_frame_timestamps (clamp_end v e) = some B)
    (hlt : A < B) :
    generate_trim v s e p =
      some ((if clamp_start v s ≠ A then [path_join v.temp_dir (p ++ "_start.ts")] else [])
          ++ [path_join v.temp_dir (p ++ "_middle.ts")]
          ++ (if clamp_end v e ≠ B then [path_join v.temp_dir (p ++ "_end.ts")] else []),
        [trim A B (path_join v.temp_dir (p ++ "_middle.ts")) true],
        (if clamp_start v s ≠ A then
            [trim (clamp_start v s) A (path_join v.temp_dir (p ++ "_start.ts")) false]
          else [])
          ++ (if clamp_end v e ≠ B then
            [trim B (clamp_end v e) (path_join v.temp_dir (p ++ "_end.ts")) false]
          else [])) := by
  simp only [generate_trim, hA, hB]
  rw [if_neg (not_lt.2 (le_of_lt hlt)), if_neg (ne_of_lt hlt)]

theorem plan_segments_single (c : TrimCmd) : plan_segments [c.path] [] [c] = [c] := by
  simp [plan_segments, List.find?]

theorem plan_segments_pair (P Q : Prop) [Decidable P] [Decidable Q]
    (c d : TrimCmd) (hcd : c.path ≠ d.path) :
    plan_segments ((if P then [c.path] else []) ++ (if Q then [d.path] else [])) []
      ((if P then [c] else []) ++ (if Q then [d] else []))
      = (if P then [c] else []) ++ (if Q then [d] else []) := by
  have e1 : (c.path == d.path) = false := beq_eq_false_iff_ne.2 hcd
  have e2 : (d.path == c.path) = false := beq_eq_false_iff_ne.2 (Ne.symm hcd)
  split_ifs <;>
    simp [plan_segments, List.filterMap_cons, List.find?, e1, e2]

theorem plan_segments_triple (P Q : Prop) [Decidable P] [Decidable Q]
    (c m d : TrimCmd) (hcm : c.path ≠ m.path) (hcd : c.path ≠ d.path)
    (hmd : m.path ≠ d.path) :
    plan_segments
      ((if P then [c.path] else []) ++ [m.path] ++ (if Q then [d.path] else []))
      [m] ((if P then [c] else []) ++ (if Q then [d] else []))
      = (if P then [c] else []) ++ [m] ++ (if Q then [d] else []) := by
  have e1 : (c.path == m.path) = false := beq_eq_false_iff_ne.2 hcm
  have e2 : (m.path == c.path) = false := beq_eq_false_iff_ne.2 (Ne.symm hcm)
  have e3 : (c.path == d.path) = false := beq_eq_false_iff_ne.2 hcd
  have e4 : (d.path == c.path) = false := beq_eq_false_iff_ne.2 (Ne.symm hcd)
  have e5 : (m.path == d.path) = false := beq_eq_false_iff_ne.2 hmd
  have e6 : (d.path == m.path) = false := beq_eq_false_iff_ne.2 (Ne.symm hmd)
  split_ifs <;>
    simp [plan_segments, List.filterMap_cons, List.find?, e1, e2, e3, e4, e5, e6]

theorem start_ne_middle (d p : String) :
    path_join d (p ++ "_start.ts") ≠ path_join d (p ++ "_middle.ts") :=
  path_join_ne d p (by decide)

theorem start_ne_end (d p : String) :
    path_join d (p ++ "_start.ts") ≠ path_join d (p ++ "_end.ts") :=
  path_join_ne d p (by decide)

theorem middle_ne_end (d p : String) :
    path_join d (p ++ "_middle.ts") ≠ path_join d (p ++ "_end.ts") :=
  path_join_ne d p (by decide)

theorem sorted_head_le {k0 : ℚ} {rest : List ℚ} (hs : (k0 :: rest).Sorted (· ≤ ·)) :
    ∀ j ∈ k0 :: rest, k0 ≤ j := by
  intro j hj
  rcases List.mem_cons.1 hj with rfl | hj2
  · exact le_refl j
  · exact (List.pairwise_cons.1 hs).1 j hj2

theorem clamp_start_ge (v : TrimVideo) (t : ℚ) : t ≤ clamp_start v t := by
  unfold clamp_start
  split
  · exact le_of_lt (by assumption)
  · exact le_refl t

theorem clamp_end_le (v : TrimVideo) (t : ℚ) : clamp_end v t ≤ t := by
  unfold clamp_end
  split
  · exact le_of_lt (by assumption)
  · exact le_refl t

theorem copy_branch_bounds {v : TrimVideo} {s e A B : ℚ}
    (hs : v.key_frame_timestamps.Sorted (· ≤ ·))
    (hdur : ∀ k ∈ v.key_frame_timestamps, k ≤ v.duration)
    (hA : find_after_timestamp v.key_frame_timestamps v.duration (clamp_start v s) = A)
    (hB : find_before_timestamp v.key_frame_timestamps (clamp_end v e) = some B)
    (hlt : A < B) :
    A ∈ v.key_frame_timestamps ∧ B ∈ v.key_frame_timestamps ∧
      clamp_start v s ≤ A ∧ B ≤ clamp_end v e := by
  have hBmem : B ∈ v.key_frame_timestamps := find_before_mem hB
  have hBdur : B ≤ v.duration := hdur B hBmem
  have hAmem : A ∈ v.key_frame_timestamps := by
    rcases find_after_mem_or v.key_frame_timestamps v.duration (clamp_start v s) with h | h
    · rw [hA] at h
      exact absurd hBdur (not_le.2 (h ▸ hlt))
    · exact hA ▸ h
  have hsA : clamp_start v s ≤ A := by
    rcases find_after_ge_or v.key_frame_timestamps v.duration (clamp_start v s) with h | h
    · exact hA ▸ h
    · rw [hA] at h
      exact absurd hBdur (not_le.2 (h ▸ hlt))
  have hBe : B ≤ clamp_end v e := by
    match hkfs : v.key_frame_timestamps, hBmem with
    | k0 :: rest, _ =>
      rcases find_before_le_or (hkfs ▸ hB) with h | h
      · exact h
      · subst h
        have hs2 : (B :: rest).Sorted (· ≤ ·) := hkfs ▸ hs
        have hA2 : A ∈ B :: rest := hkfs ▸ hAmem
        exact absurd (sorted_head_le hs2 A hA2) (not_le.2 hlt)
  exact ⟨hAmem, hBmem, hsA, hBe⟩

theorem plan_of_degenerate (v : TrimVideo) (s e : ℚ) (p : String) {A B : ℚ}
    (hA : find_after_timestamp v.key_frame_timestamps v.duration (clamp_start v s) = A)
    (hB : find_before_timestamp v.key_frame_timestamps (clamp_end v e) = some B)
    (hlt : B < A) :
    plan_of (generate_trim v s e p) =
      some [trim (clamp_start v s) (clamp_end v e)
        (path_join v.temp_dir (p ++ "_output.ts")) false] := by
  rw [generate_trim_degenerate v s e p hA hB hlt]
  simp only [plan_of, Option.map]
  exact congrArg some (plan_segments_single _)

theorem plan_of_equal (v : TrimVideo) (s e : ℚ) (p : String) {A B : ℚ}
    (hA : find_after_timestamp v.key_frame_timestamps v.duration (clamp_start v s) = A)
    (hB : find_before_timestamp v.key_frame_timestamps (clamp_end v e) = some B)
    (heq : A = B) :
    plan_of (generate_trim v s e p) =
      some ((if clamp_start v s ≠ B then
          [trim (clamp_start v s) B (path_join v.temp_dir (p ++ "_start.ts")) false]
        else [])
        ++ (if clamp_end v e ≠ B then
          [trim B (clamp_end v e) (path_join v.temp_dir (p ++ "_end.ts")) false]
        else [])) := by
  rw [generate_trim_equal v s e p hA hB heq]
  simp only [plan_of, Option.map]
  exact congrArg some (plan_segments_pair _ _ _ _ (start_ne_end v.temp_dir p))

theorem plan_of_copy (v : TrimVideo) (s e : ℚ) (p : String) {A B : ℚ}
    (hA : find_after_timestamp v.key_frame_timestamps v.duration (clamp_start v s) = A)
    (hB : find_before_timestamp v.key_frame_timestamps (clamp_end v e) = some B)
    (hlt : A < B) :
    plan_of (generate_trim v s e p) =
      some ((if clamp_start v s ≠ A then
          [trim (clamp_start v s) A (path_join v.temp_dir (p ++ "_start.ts")) false]
        else [])
        ++ [trim A B (path_join v.temp_dir (p ++ "_middle.ts")) true]
        ++ (if clamp_end v e ≠ B then
          [trim B (clamp_end v e) (path_join v.temp_dir (p ++ "_end.ts")) false]
        else [])) := by
  rw [generate_trim_copy v s e p hA hB hlt]
  simp only [plan_of, Option.map]
  exact congrArg some (plan_segments_triple _ _ _ _ _ (start_ne_middle v.temp_dir p)
    (start_ne_end v.temp_dir p) (middle_ne_end v.temp_dir p))

/-- C2: for every non-empty keyframe list (sorted ascending, the KeyframeIndex
invariant) and every timestamp `t`, `find_before_timestamp t` succeeds and
returns the greatest keyframe timestamp `≤ t` when `t` is at or after the
first keyframe, and returns the first keyframe (not a failure) when `t` is
before the first keyframe. -/
theorem find_before_timestamp_spec (k0 : ℚ) (rest : List ℚ) (t : ℚ)
    (hs : (k0 :: rest).Sorted (· ≤ ·)) :
    (k0 ≤ t → ∃ r, find_before_timestamp (k0 :: rest) t = some r ∧ r ∈ k0 :: rest ∧
        r ≤ t ∧ ∀ k ∈ k0 :: rest, k ≤ t → k ≤ r)
    ∧ (t < k0 → find_before_timestamp (k0 :: rest) t = some k0) := by
  constructor
  · intro hk
    exact ⟨floor_go t k0 (k0 :: rest), find_before_cons k0 t rest,
      find_before_mem (find_before_cons k0 t rest),
      find_before_le hk (find_before_cons k0 t rest),
      find_before_greatest hs (find_before_cons k0 t rest)⟩
  · intro hk
    exact find_before_first rest hk

/-- C2 witness: on keyframes `[0, 2, 4]` and `t = 3` (at or after the first
keyframe) the result is the greatest keyframe `≤ 3`. -/
theorem find_before_timestamp_spec_witness :
    ∃ r, find_before_timestamp [0, 2, 4] 3 = some r ∧ r ∈ [(0 : ℚ), 2, 4] ∧
      r ≤ 3 ∧ ∀ k ∈ [(0 : ℚ), 2, 4], k ≤ 3 → k ≤ r :=
  (find_before_timestamp_spec 0 [2, 4] 3 (by decide)).1 (by decide)

/-- C3: for every non-empty keyframe list (sorted ascending) with duration at
least the last keyframe and every timestamp `t`, `find_after_timestamp t`
returns the least keyframe timestamp `≥ t` when `t` is at or before the last
keyframe, and returns the duration when `t` is after the last keyframe. -/
theorem find_after_timestamp_spec (kfs : List ℚ) (dur t : ℚ) (hne : kfs ≠ [])
    (hs : kfs.Sorted (· ≤ ·)) (hdur : kfs.getLast hne ≤ dur) :
    (t ≤ kfs.getLast hne →
      find_after_timestamp kfs dur t ∈ kfs ∧ t ≤ find_after_timestamp kfs dur t ∧
        ∀ k ∈ kfs, t ≤ k → find_after_timestamp kfs dur t ≤ k)
    ∧ (kfs.getLast hne < t → find_after_timestamp kfs dur t = dur) := by
  constructor
  · intro h
    rcases find_after_le_last dur hne hs h with ⟨h1, h2⟩
    exact ⟨h1, h2, find_after_least dur hs⟩
  · intro h
    exact find_after_after_last dur hne hs h

/-- C3 witness: on keyframes `[0, 2, 4]`, duration `10`, and `t = 3` (at or
before the last keyframe) the result is the least keyframe `≥ 3`. -/
theorem find_after_timestamp_spec_witness :
    find_after_timestamp [0, 2, 4] 10 3 ∈ [(0 : ℚ), 2, 4] ∧
      (3 : ℚ) ≤ find_after_timestamp [0, 2, 4] 10 3 ∧
      ∀ k ∈ [(0 : ℚ), 2, 4], 3 ≤ k → find_after_timestamp [0, 2, 4] 10 3 ≤ k :=
  (find_after_timestamp_spec [0, 2, 4] 10 3 (by decide) (by decide) (by decide)).1
    (by decide)

/-- C1: for every keyframe index (non-empty keyframe list) and every request
whose clamped start is at most its clamped end, the chronological segment list
returned by `generate_trim` concatenates with no gap and no overlap to
exactly the interval from the clamped start to the clamped end: the first
segment starts at the clamped start, each segment's end equals the next
segment's start, and the last segment ends at the clamped end. -/
theorem generate_trim_coverage (v : TrimVideo) (s e : ℚ) (p : String)
    (hne : v.key_frame_timestamps ≠ [])
    (hle : clamp_start v s ≤ clamp_end v e) :
    ∃ segs, plan_of (generate_trim v s e p) = some segs ∧
      chain_covers (clamp_start v s) segs (clamp_end v e) := by
  obtain ⟨B, hB⟩ := find_before_isSome hne (clamp_end v e)
  obtain ⟨A, hA⟩ :
      ∃ A, find_after_timestamp v.key_frame_timestamps v.duration (clamp_start v s) = A :=
    ⟨_, rfl⟩
  rcases lt_trichotomy A B with hlt | heq | hgt
  · refine ⟨_, plan_of_copy v s e p hA hB hlt, ?_⟩
    by_cases h1 : clamp_start v s = A <;> by_cases h2 : clamp_end v e = B <;>
      simp [chain_covers, trim, h1, h2]
  · refine ⟨_, plan_of_equal v s e p hA hB heq, ?_⟩
    subst heq
    by_cases h1 : clamp_start v s = A <;> by_cases h2 : clamp_end v e = A <;>
      simp [chain_covers, trim, h1, h2]
  · refine ⟨_, plan_of_degenerate v s e p hA hB hgt, ?_⟩
    simp [chain_covers, trim]

/-- C1 witness: keyframes `[0, 2, 4, 6, 8]`, duration `10`, session range
`(0, 10)`, request `(1, 7)`. -/
theorem generate_trim_coverage_witness :
    ∃ segs,
      plan_of (generate_trim ⟨[0, 2, 4, 6, 8], 10, (0, 10), "t"⟩ 1 7 "") = some segs ∧
      chain_covers (clamp_start ⟨[0, 2, 4, 6, 8], 10, (0, 10), "t"⟩ 1) segs
        (clamp_end ⟨[0, 2, 4, 6, 8], 10, (0, 10), "t"⟩ 7) :=
  generate_trim_coverage ⟨[0, 2, 4, 6, 8], 10, (0, 10), "t"⟩ 1 7 "" (by decide)
    (by decide)

theorem generate_trim_shape (v : TrimVideo) (s e : ℚ) (p : String)
    {files : List String} {fast slow : List TrimCmd}
    (h : generate_trim v s e p = some (files, fast, slow)) :
    ∃ A B,
      find_after_timestamp v.key_frame_timestamps v.duration (clamp_start v s) = A ∧
      find_before_timestamp v.key_frame_timestamps (clamp_end v e) = some B ∧
      ((B < A ∧
          fast = [] ∧
          slow = [trim (clamp_start v s) (clamp_end v e)
            (path_join v.temp_dir (p ++ "_output.ts")) false] ∧
          files = [path_join v.temp_dir (p ++ "_output.ts")] ∧
          plan_segments files fast slow = slow)
        ∨ (A = B ∧
          fast = [] ∧
          slow = (if clamp_start v s ≠ B then
              [trim (clamp_start v s) B (path_join v.temp_dir (p ++ "_start.ts")) false]
            else [])
            ++ (if clamp_end v e ≠ B then
              [trim B (clamp_end v e) (path_join v.temp_dir (p ++ "_end.ts")) false]
            else []) ∧
          files = (if clamp_start v s ≠ B then
              [path_join v.temp_dir (p ++ "_start.ts")]
            else [])
            ++ (if clamp_end v e ≠ B then [path_join v.temp_dir (p ++ "_end.ts")] else []) ∧
          plan_segments files fast slow = slow)
        ∨ (A < B ∧
          fast = [trim A B (path_join v.temp_dir (p ++ "_middle.ts")) true] ∧
          slow = (if clamp_start v s ≠ A then
              [trim (clamp_start v s) A (path_join v.temp_dir (p ++ "_start.ts")) false]
            else [])
            ++ (if clamp_end v e ≠ B then
              [trim B (clamp_end v e) (path_join v.temp_dir (p ++ "_end.ts")) false]
            else []) ∧
          files = (if clamp_start v s ≠ A then
              [path_join v.temp_dir (p ++ "_start.ts")]
            else [])
            ++ [path_join v.temp_dir (p ++ "_middle.ts")]
            ++ (if clamp_end v e ≠ B then [path_join v.temp_dir (p ++ "_end.ts")] else []) ∧
          plan_segments files fast slow =
            (if clamp_start v s ≠ A then
              [trim (clamp_start v s) A (path_join v.temp_dir (p ++ "_start.ts")) false]
            else [])
            ++ [trim A B (path_join v.temp_dir (p ++ "_middle.ts")) true]
            ++ (if clamp_end v e ≠ B then
              [trim B (clamp_end v e) (path_join v.temp_dir (p ++ "_end.ts")) false]
            else []))) := by
  rcases hfb : find_before_timestamp v.key_frame_timestamps (clamp_end v e) with _ | B
  · simp [generate_trim, hfb] at h
  · obtain ⟨A, hA⟩ :
        ∃ A, find_after_timestamp v.key_frame_timestamps v.duration (clamp_start v s) = A :=
      ⟨_, rfl⟩
    refine ⟨A, B, hA, rfl, ?_⟩
    rcases lt_trichotomy A B with hlt | heq | hgt
    · rw [generate_trim_copy v s e p hA hfb hlt] at h
      simp only [Option.some.injEq, Prod.mk.injEq] at h
      obtain ⟨hf, hft, hsl⟩ := h
      subst hf
      subst hft
      subst hsl
      refine Or.inr (Or.inr ⟨hlt, rfl, rfl, rfl, ?_⟩)
      exact plan_segments_triple _ _ _ _ _ (start_ne_middle v.temp_dir p)
        (start_ne_end v.temp_dir p) (middle_ne_end v.temp_dir p)
    · rw [generate_trim_equal v s e p hA hfb heq] at h
      simp only [Option.some.injEq, Prod.mk.injEq] at h
      obtain ⟨hf, hft, hsl⟩ := h
      subst hf
      subst hft
      subst hsl
      refine Or.inr (Or.inl ⟨heq, rfl, rfl, rfl, ?_⟩)
      exact plan_segments_pair _ _ _ _ (start_ne_end v.temp_dir p)
    · rw [generate_trim_degenerate v s e p hA hfb hgt] at h
      simp only [Option.some.injEq, Prod.mk.injEq] at h
      obtain ⟨hf, hft, hsl⟩ := h
      subst hf
      subst hft
      subst hsl
      exact Or.inl ⟨hgt, rfl, rfl, rfl, plan_segments_single _⟩

/-- C4: in the normal case where `innerStart` (the ceiling keyframe `A` of
the clamped start) is strictly less than `innerEnd` (the floor keyframe `B`
of the clamped end), the chronological plan is: a Transcode segment
`[start, A]` exactly when `start ≠ A`, then the Copy segment `[A, B]`, then a
Transcode segment `[B, end]` exactly when `end ≠ B`; in particular, for
keyframes `[0, 2, 4, 6, 8]`, duration `10`, and request `(1, 7)`, the plan is
Transcode `[1, 2]`, Copy `[2, 6]`, Transcode `[6, 7]`. -/
theorem generate_trim_normal_case (v : TrimVideo) (s e : ℚ) (p : String) {A B : ℚ}
    (hA : find_after_timestamp v.key_frame_timestamps v.duration (clamp_start v s) = A)
    (hB : find_before_timestamp v.key_frame_timestamps (clamp_end v e) = some B)
    (hlt : A < B) :
    plan_of (generate_trim v s e p) =
      some ((if clamp_start v s ≠ A then
          [trim (clamp_start v s) A (path_join v.temp_dir (p ++ "_start.ts")) false]
        else [])
        ++ [trim A B (path_join v.temp_dir (p ++ "_middle.ts")) true]
        ++ (if clamp_end v e ≠ B then
          [trim B (clamp_end v e) (path_join v.temp_dir (p ++ "_end.ts")) false]
        else []))
    ∧ plan_of (generate_trim ⟨[0, 2, 4, 6, 8], 10, (0, 10), "t"⟩ 1 7 "") =
      some [trim 1 2 "t/_start.ts" false, trim 2 6 "t/_middle.ts" true,
        trim 6 7 "t/_end.ts" false] :=
  ⟨plan_of_copy v s e p hA hB hlt, by decide⟩

/-- C4 witness: Scenario A, keyframes `[0, 2, 4, 6, 8]`, duration `10`,
request `(1, 7)`, with `innerStart = 2 < 6 = innerEnd`. -/
theorem generate_trim_normal_case_witness :
    (plan_of (generate_trim ⟨[0, 2, 4, 6, 8], 10, (0, 10), "t"⟩ 1 7 "") =
      some ((if clamp_start ⟨[0, 2, 4, 6, 8], 10, (0, 10), "t"⟩ 1 ≠ (2 : ℚ) then
          [trim (clamp_start ⟨[0, 2, 4, 6, 8], 10, (0, 10), "t"⟩ 1) 2
            (path_join "t" ("" ++ "_start.ts")) false]
        else [])
        ++ [trim 2 6 (path_join "t" ("" ++ "_middle.ts")) true]
        ++ (if clamp_end ⟨[0, 2, 4, 6, 8], 10, (0, 10), "t"⟩ 7 ≠ (6 : ℚ) then
          [trim 6 (clamp_end ⟨[0, 2, 4, 6, 8], 10, (0, 10), "t"⟩ 7)
            (path_join "t" ("" ++ "_end.ts")) false]
        else [])))
    ∧ plan_of (generate_trim ⟨[0, 2, 4, 6, 8], 10, (0, 10), "t"⟩ 1 7 "") =
      some [trim 1 2 "t/_start.ts" false, trim 2 6 "t/_middle.ts" true,
        trim 6 7 "t/_end.ts" false] :=
  generate_trim_normal_case ⟨[0, 2, 4, 6, 8], 10, (0, 10), "t"⟩ 1 7 ""
    (by decide) (by decide) (by decide)

/-- C9: for every plan produced by `generate_trim`, the copy-job list and the
transcode-job list partition the plan's chronological segments by mode (Copy
segments make up exactly the copy list, Transcode segments exactly the
transcode list), each preserving the segments' chronological order. -/
theorem generate_trim_partition (v : TrimVideo) (s e : ℚ) (p : String)
    (files : List String) (fast slow : List TrimCmd)
    (h : generate_trim v s e p = some (files, fast, slow)) :
    (plan_segments files fast slow).filter (fun c => c.copy) = fast ∧
      (plan_segments files fast slow).filter (fun c => !c.copy) = slow := by
  obtain ⟨A, B, hA, hB, hcase⟩ := generate_trim_shape v s e p h
  rcases hcase with ⟨hlt, hft, hsl, hf, hps⟩ | ⟨heq, hft, hsl, hf, hps⟩ |
    ⟨hlt, hft, hsl, hf, hps⟩
  · rw [hps, hft, hsl]
    constructor <;> simp [trim]
  · rw [hps, hft, hsl]
    constructor <;> split_ifs <;> simp [trim]
  · rw [hps, hft, hsl]
    constructor <;> split_ifs <;> simp [trim]

/-- C9 witness: keyframes `[0, 2, 4, 6, 8]`, duration `10`, request `(1, 7)`. -/
theorem generate_trim_partition_witness :
    (plan_segments ["t/_start.ts", "t/_middle.ts", "t/_end.ts"]
        [trim 2 6 "t/_middle.ts" true]
        [trim 1 2 "t/_start.ts" false, trim 6 7 "t/_end.ts" false]).filter
        (fun c => c.copy) = [trim 2 6 "t/_middle.ts" true] ∧
    (plan_segments ["t/_start.ts", "t/_middle.ts", "t/_end.ts"]
        [trim 2 6 "t/_middle.ts" true]
        [trim 1 2 "t/_start.ts" false, trim 6 7 "t/_end.ts" false]).filter
        (fun c => !c.copy) = [trim 1 2 "t/_start.ts" false, trim 6 7 "t/_end.ts" false] :=
  generate_trim_partition ⟨[0, 2, 4, 6, 8], 10, (0, 10), "t"⟩ 1 7 "" _ _ _ (by decide)

/-- C10: a single `generate_trim` call returns at most one Copy job, at most
two Transcode jobs, and a file list whose length equals the total number of
jobs returned. -/
theorem generate_trim_job_counts (v : TrimVideo) (s e : ℚ) (p : String)
    (files : List String) (fast slow : List TrimCmd)
    (h : generate_trim v s e p = some (files, fast, slow)) :
    fast.length ≤ 1 ∧ slow.length ≤ 2 ∧
      files.length = fast.length + slow.length := by
  obtain ⟨A, B, hA, hB, hcase⟩ := generate_trim_shape v s e p h
  rcases hcase with ⟨hlt, hft, hsl, hf, hps⟩ | ⟨heq, hft, hsl, hf, hps⟩ |
    ⟨hlt, hft, hsl, hf, hps⟩
  · rw [hft, hsl, hf]
    simp
  · rw [hft, hsl, hf]
    refine ⟨by simp, ?_, ?_⟩ <;> split_ifs <;> simp
  · rw [hft, hsl, hf]
    refine ⟨by simp, ?_, ?_⟩ <;> split_ifs <;> simp
/-- C10 witness: keyframes `[0, 2, 4, 6, 8]`, duration `10`, request `(1, 7)`. -/
theorem generate_trim_job_counts_witness :
    ([trim 2 6 "t/_middle.ts" true] : List TrimCmd).length ≤ 1 ∧
      ([trim 1 2 "t/_start.ts" false, trim 6 7 "t/_end.ts" false] : List TrimCmd).length ≤ 2 ∧
      (["t/_start.ts", "t/_middle.ts", "t/_end.ts"] : List String).length =
        ([trim 2 6 "t/_middle.ts" true] : List TrimCmd).length +
          ([trim 1 2 "t/_start.ts" false, trim 6 7 "t/_end.ts" false] : List TrimCmd).length :=
  generate_trim_job_counts ⟨[0, 2, 4, 6, 8], 10, (0, 10), "t"⟩ 1 7 "" _ _ _ (by decide)

theorem prefix_interior_free {v : TrimVideo} {t A k : ℚ}
    (hs : v.key_frame_timestamps.Sorted (· ≤ ·))
    (hA : find_after_timestamp v.key_frame_timestamps v.duration t = A)
    (hk : k ∈ v.key_frame_timestamps) : ¬ (t < k ∧ k < A) := by
  rintro ⟨h1, h2⟩
  exact absurd (hA ▸ find_after_least v.duration hs k hk (le_of_lt h1)) (not_le.2 h2)

theorem suffix_interior_free {kfs : List ℚ} {t B k : ℚ}
    (hs : kfs.Sorted (· ≤ ·)) (hB : find_before_timestamp kfs t = some B)
    (hk : k ∈ kfs) : ¬ (B < k ∧ k < t) := by
  rintro ⟨h1, h2⟩
  exact absurd (find_before_greatest hs hB k hk (le_of_lt h2)) (not_le.2 h1)

theorem degenerate_interior_free {v : TrimVideo} {t u A B k : ℚ}
    (hs : v.key_frame_timestamps.Sorted (· ≤ ·))
    (hA : find_after_timestamp v.key_frame_timestamps v.duration t = A)
    (hB : find_before_timestamp v.key_frame_timestamps u = some B)
    (hlt : B < A) (hk : k ∈ v.key_frame_timestamps) : ¬ (t < k ∧ k < u) := by
  rintro ⟨h1, h2⟩
  have hAk : A ≤ k := hA ▸ find_after_least v.duration hs k hk (le_of_lt h1)
  have hkB : k ≤ B := find_before_greatest hs hB k hk (le_of_lt h2)
  exact absurd (le_trans hAk hkB) (not_le.2 hlt)

/-- C5: for every plan produced by `generate_trim` (on a sorted keyframe list
whose timestamps do not exceed the duration, the KeyframeIndex invariant):
when a Copy segment is present, it is keyframe-aligned (both endpoints are
keyframes), lies inside the clamped request, and contains every
keyframe-aligned sub-interval of the clamped request (so it is the unique
maximal one); and no Transcode segment contains a keyframe strictly in its
interior, i.e. each Transcode segment spans at most one keyframe interval —
its duration cannot exceed the distance between the two adjacent keyframes
surrounding it at that edge. -/
theorem generate_trim_minimality (v : TrimVideo) (s e : ℚ) (p : String)
    (hs : v.key_frame_timestamps.Sorted (· ≤ ·))
    (hdur : ∀ k ∈ v.key_frame_timestamps, k ≤ v.duration)
    (files : List String) (fast slow : List TrimCmd)
    (h : generate_trim v s e p = some (files, fast, slow)) :
    (∀ c ∈ fast,
      c.start ∈ v.key_frame_timestamps ∧ c.stop ∈ v.key_frame_timestamps ∧
        clamp_start v s ≤ c.start ∧ c.stop ≤ clamp_end v e ∧
        (∀ a ∈ v.key_frame_timestamps, clamp_start v s ≤ a → c.start ≤ a) ∧
        (∀ b ∈ v.key_frame_timestamps, b ≤ clamp_end v e → b ≤ c.stop)) ∧
    (∀ c ∈ slow, ∀ k ∈ v.key_frame_timestamps, ¬ (c.start < k ∧ k < c.stop)) := by
  obtain ⟨A, B, hA, hB, hcase⟩ := generate_trim_shape v s e p h
  rcases hcase with ⟨hlt, hft, hsl, hf, hps⟩ | ⟨heq, hft, hsl, hf, hps⟩ |
    ⟨hlt, hft, hsl, hf, hps⟩
  · subst hft
    subst hsl
    refine ⟨by simp, ?_⟩
    intro c hc k hk
    rcases List.mem_singleton.1 hc with rfl
    exact degenerate_interior_free hs hA hB hlt hk
  · subst hft
    subst hsl
    refine ⟨by simp, ?_⟩
    intro c hc k hk
    rcases List.mem_append.1 hc with hc2 | hc2
    · obtain ⟨hcond, hmem⟩ := List.mem_ite_nil_right.1 hc2
      rcases List.mem_singleton.1 hmem with rfl
      simp only [trim]
      exact heq ▸ prefix_interior_free hs hA hk
    · obtain ⟨hcond, hmem⟩ := List.mem_ite_nil_right.1 hc2
      rcases List.mem_singleton.1 hmem with rfl
      simp only [trim]
      exact suffix_interior_free hs hB hk
  · subst hft
    subst hsl
    obtain ⟨hAmem, hBmem, hsA, hBe⟩ := copy_branch_bounds hs hdur hA hB hlt
    constructor
    · intro c hc
      rcases List.mem_singleton.1 hc with rfl
      refine ⟨hAmem, hBmem, hsA, hBe, ?_, ?_⟩
      · intro a ha hsa
        exact hA ▸ find_after_least v.duration hs a ha hsa
      · intro b hb hbe
        exact find_before_greatest hs hB b hb hbe
    · intro c hc k hk
      rcases List.mem_append.1 hc with hc2 | hc2
      · obtain ⟨hcond, hmem⟩ := List.mem_ite_nil_right.1 hc2
        rcases List.mem_singleton.1 hmem with rfl
        simp only [trim]
        exact prefix_interior_free hs hA hk
      · obtain ⟨hcond, hmem⟩ := List.mem_ite_nil_right.1 hc2
        rcases List.mem_singleton.1 hmem with rfl
        simp only [trim]
        exact suffix_interior_free hs hB hk

/-- C5 witness: keyframes `[0, 2, 4, 6, 8]`, duration `10`, request `(1, 7)`:
the Copy segment `[2, 6]` is the unique maximal keyframe-aligned sub-interval
and the Transcode segments `[1, 2]` and `[6, 7]` contain no interior
keyframe. -/
theorem generate_trim_minimality_witness :
    (∀ c ∈ [trim 2 6 "t/_middle.ts" true],
      c.start ∈ [(0 : ℚ), 2, 4, 6, 8] ∧ c.stop ∈ [(0 : ℚ), 2, 4, 6, 8] ∧
        clamp_start ⟨[0, 2, 4, 6, 8], 10, (0, 10), "t"⟩ 1 ≤ c.start ∧
        c.stop ≤ clamp_end ⟨[0, 2, 4, 6, 8], 10, (0, 10), "t"⟩ 7 ∧
        (∀ a ∈ [(0 : ℚ), 2, 4, 6, 8],
          clamp_start ⟨[0, 2, 4, 6, 8], 10, (0, 10), "t"⟩ 1 ≤ a → c.start ≤ a) ∧
        (∀ b ∈ [(0 : ℚ), 2, 4, 6, 8],
          b ≤ clamp_end ⟨[0, 2, 4, 6, 8], 10, (0, 10), "t"⟩ 7 → b ≤ c.stop)) ∧
    (∀ c ∈ [trim 1 2 "t/_start.ts" false, trim 6 7 "t/_end.ts" false],
      ∀ k ∈ [(0 : ℚ), 2, 4, 6, 8], ¬ (c.start < k ∧ k < c.stop)) :=
  generate_trim_minimality ⟨[0, 2, 4, 6, 8], 10, (0, 10), "t"⟩ 1 7 ""
    (by decide) (by decide) ["t/_start.ts", "t/_middle.ts", "t/_end.ts"]
    [trim 2 6 "t/_middle.ts" true]
    [trim 1 2 "t/_start.ts" false, trim 6 7 "t/_end.ts" false] (by decide)

/-- C6 counterexample: keyframes `[0, 5]`, duration `10`, session range
`(0, 10)`, request `(1, 1)` with start equal to end: `generate_trim` neither
rejects the request nor returns an empty plan — it returns a non-empty
segment list holding one zero-length Transcode segment `[1, 1]`. -/
theorem start_eq_end_nonempty_plan :
    generate_trim ⟨[0, 5], 10, (0, 10), "t"⟩ 1 1 "" =
      some (["t/_output.ts"], [], [trim 1 1 "t/_output.ts" false]) ∧
    plan_of (generate_trim ⟨[0, 5], 10, (0, 10), "t"⟩ 1 1 "") ≠ some [] :=
  ⟨by decide, by decide⟩

/-- C6 amended: a request with start equal to end is never rejected and never
yields a Copy job: `generate_trim` (on a sorted keyframe index whose
timestamps do not exceed the duration) returns a plan whose copy list is
empty and all of whose jobs are Transcode; contrary to the claim, the
returned segment list can be non-empty (for example a single zero-length
Transcode segment when the point lies strictly between two keyframes). -/
theorem start_eq_end_no_copy (v : TrimVideo) (t : ℚ) (p : String)
    (hs : v.key_frame_timestamps.Sorted (· ≤ ·))
    (hne : v.key_frame_timestamps ≠ [])
    (hdur : ∀ k ∈ v.key_frame_timestamps, k ≤ v.duration) :
    ∃ files slow, generate_trim v t t p = some (files, [], slow) ∧
      ∀ c ∈ slow, c.copy = false := by
  obtain ⟨B, hB⟩ := find_before_isSome hne (clamp_end v t)
  obtain ⟨A, hA⟩ :
      ∃ A, find_after_timestamp v.key_frame_timestamps v.duration (clamp_start v t) = A :=
    ⟨_, rfl⟩
  rcases lt_trichotomy A B with hlt | heq | hgt
  · obtain ⟨_, _, hsA, hBe⟩ := copy_branch_bounds hs hdur hA hB hlt
    have hes : clamp_end v t ≤ clamp_start v t :=
      le_trans (clamp_end_le v t) (clamp_start_ge v t)
    exact absurd (lt_of_le_of_lt hsA (lt_of_lt_of_le hlt hBe))
      (not_lt.2 hes)
  · refine ⟨_, _, generate_trim_equal v t t p hA hB heq, ?_⟩
    intro c hc
    rcases List.mem_append.1 hc with hc2 | hc2
    · obtain ⟨_, hmem⟩ := List.mem_ite_nil_right.1 hc2
      rcases List.mem_singleton.1 hmem with rfl
      rfl
    · obtain ⟨_, hmem⟩ := List.mem_ite_nil_right.1 hc2
      rcases List.mem_singleton.1 hmem with rfl
      rfl
  · refine ⟨_, _, generate_trim_degenerate v t t p hA hB hgt, ?_⟩
    intro c hc
    rcases List.mem_singleton.1 hc with rfl
    rfl

/-- C6 witness: keyframes `[0, 5]`, duration `10`, request `(1, 1)`. -/
theorem start_eq_end_no_copy_witness :
    ∃ files slow, generate_trim ⟨[0, 5], 10, (0, 10), "t"⟩ 1 1 "" =
      some (files, [], slow) ∧ ∀ c ∈ slow, c.copy = false :=
  start_eq_end_no_copy ⟨[0, 5], 10, (0, 10), "t"⟩ 1 "" (by decide) (by decide)
    (by decide)

/-- C7 counterexample: keyframes `[0, 2, 4, 6, 8]`, duration `10`, session
range `(0, 10)`, request `(7, 1)` whose clamped start `7` is strictly greater
than its clamped end `1`: planning does not fail — `generate_trim` returns a
plan containing a (reversed) Transcode segment. -/
theorem reversed_range_returns_plan :
    clamp_end ⟨[0, 2, 4, 6, 8], 10, (0, 10), "t"⟩ 1 <
      clamp_start ⟨[0, 2, 4, 6, 8], 10, (0, 10), "t"⟩ 7 ∧
    generate_trim ⟨[0, 2, 4, 6, 8], 10, (0, 10), "t"⟩ 7 1 "" =
      some (["t/_output.ts"], [], [trim 7 1 "t/_output.ts" false]) :=
  ⟨by decide, by decide⟩

/-- C7 amended: `generate_trim` performs no range validation: for every
request whose clamped start is strictly greater than its clamped end it does
not fail and returns a plan — with no Copy job but a non-empty Transcode job
list (containing zero-length or reversed segments) — rather than surfacing an
InvalidRange error. -/
theorem reversed_range_no_validation (v : TrimVideo) (s e : ℚ) (p : String)
    (hs : v.key_frame_timestamps.Sorted (· ≤ ·))
    (hne : v.key_frame_timestamps ≠ [])
    (hdur : ∀ k ∈ v.key_frame_timestamps, k ≤ v.duration)
    (hgt : clamp_end v e < clamp_start v s) :
    ∃ files slow, generate_trim v s e p = some (files, [], slow) ∧ slow ≠ [] := by
  obtain ⟨B, hB⟩ := find_before_isSome hne (clamp_end v e)
  obtain ⟨A, hA⟩ :
      ∃ A, find_after_timestamp v.key_frame_timestamps v.duration (clamp_start v s) = A :=
    ⟨_, rfl⟩
  rcases lt_trichotomy A B with hlt | heq | hlt
  · obtain ⟨_, _, hsA, hBe⟩ := copy_branch_bounds hs hdur hA hB hlt
    exact absurd (lt_of_le_of_lt hsA (lt_of_lt_of_le hlt hBe)) (not_lt.2 (le_of_lt hgt))
  · refine ⟨_, _, generate_trim_equal v s e p hA hB heq, ?_⟩
    by_cases h1 : clamp_start v s = B <;> by_cases h2 : clamp_end v e = B
    · exact absurd hgt (by rw [h1, h2]; exact lt_irrefl B)
    · simp [h1, h2]
    · simp [h1, h2]
    · simp [h1, h2]
  · refine ⟨_, _, generate_trim_degenerate v s e p hA hB hlt, ?_⟩
    simp

/-- C7 witness: keyframes `[0, 2, 4, 6, 8]`, duration `10`, request `(7, 1)`. -/
theorem reversed_range_no_validation_witness :
    ∃ files slow, generate_trim ⟨[0, 2, 4, 6, 8], 10, (0, 10), "t"⟩ 7 1 "" =
      some (files, [], slow) ∧ slow ≠ [] :=
  reversed_range_no_validation ⟨[0, 2, 4, 6, 8], 10, (0, 10), "t"⟩ 7 1 ""
    (by decide) (by decide) (by decide) (by decide)

/-- C8 counterexample: constructing the index from an empty keyframe sequence
with no explicit time range succeeds (no InvalidMedia failure at construction
time), and segment planning is then attempted on the resulting index. -/
theorem empty_keyframes_construction_succeeds :
    TrimVideo.mkInit [] 10 none "t" = some ⟨[], 10, (0, 10), "t"⟩ := by decide

/-- C8 amended: constructing from an empty keyframe sequence succeeds when no
time range is passed; it fails — with an uncaught index error inside
`find_before_timestamp`, not a structured InvalidMedia error — only when an
explicit time range is passed; segment planning on an empty-keyframe index is
attempted, failing rather than being prevented at construction; and the
failing step is the floor-keyframe query itself, which raises on the empty
list. -/
theorem empty_keyframes_behavior :
    (∀ (dur : ℚ) (td : String),
      TrimVideo.mkInit [] dur none td = some ⟨[], dur, (0, dur), td⟩)
    ∧ (∀ (dur a b : ℚ) (td : String), TrimVideo.mkInit [] dur (some (a, b)) td = none)
    ∧ (∀ (dur : ℚ) (tr : ℚ × ℚ) (td : String) (s e : ℚ) (p : String),
      generate_trim ⟨[], dur, tr, td⟩ s e p = none)
    ∧ (∀ a : ℚ, find_before_timestamp [] a = none) :=
  ⟨fun _ _ => rfl, fun _ _ _ _ => rfl, fun _ _ _ _ _ _ => rfl, fun _ => rfl⟩
